import Mathlib

/-!
Shallow embedding of the botocore-model parsing and resolution core
(`src/main.rs`): the data model (`BotocoreModel`, `Metadata`, `Operation`,
`Shape`, `ShapeReference`, `ShapeMember`, `HttpBindings`), the HTTP binding
validation (`TryFrom<HttpBindingsTemp> for HttpBindings`, delegating to the
http crate's `Method::from_bytes` and `StatusCode::from_u16`), the serde-derived
decoding of the raw JSON document, and the one-hop shape resolver `resolve`.

Rust `HashMap`s are modelled as association lists with `List.lookup`,
fallible paths (`serde` failures, the `?` operator) as `Option`/`Except`,
and the `HashMap` indexing panic in `resolve` as `Except.error` carrying the
standard-library panic message. The markup normalizer `html2md::parse_html`
is an external crate; where decoding applies it, it is passed explicitly as a
function argument `norm`, so every statement below holds for the actual
normalizer in particular.
-/

namespace Botocore

/-- Opaque auxiliary JSON payload (`serde_json::Value`): preserved verbatim by
the decoder and never inspected by any function of this program; modelled as
its raw text. -/
structure Value where
  raw : String
deriving DecidableEq

/-- Documentation text wrapper (`struct Markdown(String)`). The `From<String>`
conversion applies `html2md::parse_html`; in this development that external
function is the explicit parameter `norm` of the decoding functions. -/
structure Markdown where
  text : String
deriving DecidableEq

/-- A by-name, non-owning reference into the shapes table
(`struct ShapeReference { shape: String }`). -/
structure ShapeReference where
  shape : String
deriving DecidableEq

/-- Wire-binding location of a member (`struct Location`). -/
structure Location where
  location : String
  locationName : String
deriving DecidableEq

/-- A structure member (`struct ShapeMember`): a flattened `ShapeReference`
plus optional normalized documentation, optional `Location`, optional
streaming flag. -/
structure ShapeMember where
  shape : ShapeReference
  documentation : Option Markdown
  location : Option Location
  streaming : Option Bool
deriving DecidableEq

/-- Association list keyed by strings: the model of Rust's
`HashMap<String, V>` as used by this program. -/
abbrev StrMap (α : Type) := List (String × α)

/-- List of strings (`Vec<String>`). -/
abbrev StrList := List String

/-- The closed set of shape variants (`enum Shape`), discriminated by the
serde tag `type`. Members of a `Structure` hold `ShapeReference`s, not
shapes, so the type is not recursive: the shape graph is tied through the
by-name table only. -/
inductive Shape where
  | Structure (members : StrMap ShapeMember) (documentation : Option String)
      (required : Option StrList)
  | String (contents : StrMap Value)
  | Map (key : ShapeReference) (value : ShapeReference)
  | List (member : ShapeReference)
  | Integer (v : Value)
  | Long (v : Value)
  | Double (v : Value)
  | Blob (v : Value)
  | Boolean
  | Timestamp
deriving DecidableEq

/-- The HTTP method type of the http crate (`http::method::Method`): the nine
standard methods plus extension methods carrying an arbitrary valid token. -/
inductive Method where
  | GET
  | PUT
  | POST
  | HEAD
  | PATCH
  | TRACE
  | DELETE
  | OPTIONS
  | CONNECT
  | Extension (token : String)
deriving DecidableEq

/-- The http crate's `METHOD_CHARS` table: a byte is legal in a method token
iff it is an RFC 7230 `tchar`: the codepoints 33, 35, 36, 37, 38, 39, 42,
43, 45, 46, 48-57 (digits), 65-90 (uppercase), 94, 95, 96, 97-122
(lowercase), 124, 126. Multi-byte UTF-8 characters only have bytes at or
above 128, which the table rejects, so checking per character is equivalent
to the byte-level check on `as_bytes()`. -/
def isMethodChar (c : Char) : Bool :=
  let n := c.toNat
  n == 33 || n == 35 || n == 36 || n == 37 || n == 38 || n == 39 ||
  n == 42 || n == 43 || n == 45 || n == 46 ||
  (48 ≤ n && n ≤ 57) || (65 ≤ n && n ≤ 90) ||
  n == 94 || n == 95 || n == 96 ||
  (97 ≤ n && n ≤ 122) || n == 124 || n == 126

/-- `Method::extension_inline` / `AllocatedExtension::new` of the http crate:
accept any string all of whose bytes are method token characters. (The
inline/allocated split at length 15 only chooses a representation; both
validate with the same table.) -/
def extensionInline (s : String) : Option Method :=
  if s.toList.all isMethodChar then some (Method.Extension s) else none

/-- `http::Method::from_bytes`: the empty string is rejected, the nine
standard method spellings map to their canonical variants, and every other
string is accepted as an extension method iff all its bytes are token
characters. (The source dispatches on length first; since the standard
spellings are matched byte-exactly, the flat equality chain is the same
function.) -/
def Method.fromBytes (s : String) : Option Method :=
  if s.length = 0 then none
  else if s = "GET" then some Method.GET
  else if s = "PUT" then some Method.PUT
  else if s = "POST" then some Method.POST
  else if s = "HEAD" then some Method.HEAD
  else if s = "PATCH" then some Method.PATCH
  else if s = "TRACE" then some Method.TRACE
  else if s = "DELETE" then some Method.DELETE
  else if s = "OPTIONS" then some Method.OPTIONS
  else if s = "CONNECT" then some Method.CONNECT
  else extensionInline s

/-- `http::StatusCode::from_u16`: `if src < 100 || src >= 1000 return Err`,
otherwise the code is kept as is (the http crate's documented contract: the
value must be greater than or equal to 100 and less than 1000). The `u16`
argument is modelled as a `Nat` below `65536`. -/
def StatusCode.fromU16 (v : Nat) : Option Nat :=
  if v < 100 ∨ 1000 ≤ v then none else some v

/-- The raw HTTP binding record as deserialized from JSON
(`struct HttpBindingsTemp`). -/
structure HttpBindingsTemp where
  method : String
  requestUri : String
  responseCode : Option Nat
deriving DecidableEq

/-- The validated HTTP binding (`struct HttpBindings`): validated method,
request URI template, optional validated status code. -/
structure HttpBindings where
  method : Method
  requestUri : String
  responseCode : Option Nat
deriving DecidableEq

/-- `TryFrom<HttpBindingsTemp> for HttpBindings`: validate the response code
first (when present), then the method; any validation failure aborts the
conversion (a serde `BindingError`, modelled as `none`). -/
def HttpBindings.tryFrom (value : HttpBindingsTemp) : Option HttpBindings :=
  match value.responseCode with
  | some v =>
    match StatusCode.fromU16 v with
    | none => none
    | some c =>
      match Method.fromBytes value.method with
      | none => none
      | some m => some ⟨m, value.requestUri, some c⟩
  | none =>
    match Method.fromBytes value.method with
    | none => none
    | some m => some ⟨m, value.requestUri, none⟩

/-- One API operation (`struct Operation`). -/
structure Operation where
  name : String
  http : HttpBindings
  input : ShapeReference
  output : Option ShapeReference
  errors : List ShapeReference
  documentation : Markdown
deriving DecidableEq

/-- Service protocol (`enum Protocol`), with serde renames
`rest-json`, `json`, `rest-xml`, `query`. -/
inductive Protocol where
  | RestJson
  | Json
  | RestXml
  | Query
deriving DecidableEq

/-- Signature version (`enum Signature`), with the single serde rename `v4`. -/
inductive Signature where
  | V4
deriving DecidableEq

/-- Service metadata (`struct Metadata`). -/
structure Metadata where
  apiVersion : String
  endpointPrefix : String
  protocol : Protocol
  serviceFullName : String
  serviceId : String
  signatureVersion : Signature
deriving DecidableEq

/-- The decoded model (`struct BotocoreModel`). -/
structure BotocoreModel where
  version : String
  metadata : Metadata
  operations : StrMap Operation
  shapes : StrMap Shape
  documentation : Markdown
deriving DecidableEq

/-- An operation with its references replaced by the referenced shapes
(`struct ResolvedOperation`). -/
structure ResolvedOperation where
  name : String
  http : HttpBindings
  input : Shape
  output : Option Shape
  errors : List Shape
  documentation : Markdown
deriving DecidableEq

/-- The message of the panic raised by `HashMap`'s `Index` implementation
(`self.get(key).expect("no entry found for key")`), which is what
`shapes[&reference.shape]` raises on a missing key. Note the message is a
constant: it does not mention the key. -/
def panicMsg : String := "no entry found for key"

/-- One table lookup `shapes[&r.shape].clone()`: the shape on success, the
`Index` panic (modelled as `Except.error panicMsg`) on a missing key. -/
def lookupShape (shapes : StrMap Shape) (r : ShapeReference) : Except String Shape :=
  match shapes.lookup r.shape with
  | some s => Except.ok s
  | none => Except.error panicMsg

/-- `op.output.map(|o| shapes[&o.shape].clone())`: absent output stays
absent; a present output is looked up once. -/
def resolveOutput (shapes : StrMap Shape) : Option ShapeReference → Except String (Option Shape)
  | none => Except.ok none
  | some r =>
    match lookupShape shapes r with
    | Except.ok s => Except.ok (some s)
    | Except.error e => Except.error e

/-- `op.errors.into_iter().map(|o| shapes[&o.shape].clone()).collect()`:
look up each error reference in order, stopping at the first missing key. -/
def lookupShapes (shapes : StrMap Shape) : List ShapeReference → Except String (List Shape)
  | [] => Except.ok []
  | r :: rest =>
    match lookupShape shapes r with
    | Except.error e => Except.error e
    | Except.ok s =>
      match lookupShapes shapes rest with
      | Except.error e => Except.error e
      | Except.ok ss => Except.ok (s :: ss)

/-- `fn resolve(op, shapes) -> ResolvedOperation`: replace the input
reference, the optional output reference and each error reference by their
table entries (one lookup each, one hop deep), keeping name, http bindings
and documentation. The Rust function panics on a missing key; the panic is
the `Except.error` branch. -/
def resolve (op : Operation) (shapes : StrMap Shape) : Except String ResolvedOperation :=
  match lookupShape shapes op.input with
  | Except.error e => Except.error e
  | Except.ok input =>
    match resolveOutput shapes op.output with
    | Except.error e => Except.error e
    | Except.ok output =>
      match lookupShapes shapes op.errors with
      | Except.error e => Except.error e
      | Except.ok errors =>
        Except.ok ⟨op.name, op.http, input, output, errors, op.documentation⟩

/-- Raw JSON form of a structure member, before documentation
normalization. The flattened `shape` field is required by serde; the raw
layer models documents that carry the required field skeleton, with all
enumerated strings still raw. -/
structure RawShapeMember where
  shape : String
  documentation : Option String
  location : Option Location
  streaming : Option Bool
deriving DecidableEq

/-- Raw JSON form of a shape: the serde tag `type` plus the fields the
variants may carry (`members`/`documentation`/`required` for `structure`,
`key`/`value` for `map`, `member` for `list`, flattened extras for `string`,
and the opaque remainder for the newtype scalar variants). -/
structure RawShape where
  type : String
  members : Option (StrMap RawShapeMember)
  documentation : Option String
  required : Option StrList
  key : Option String
  value : Option String
  member : Option String
  contents : StrMap Value
  payload : Value
deriving DecidableEq

/-- Raw JSON form of an operation. -/
structure RawOperation where
  name : String
  http : HttpBindingsTemp
  input : String
  output : Option String
  errors : StrList
  documentation : String
deriving DecidableEq

/-- Raw JSON form of the metadata record. -/
structure RawMetadata where
  apiVersion : String
  endpointPrefix : String
  protocol : String
  serviceFullName : String
  serviceId : String
  signatureVersion : String
deriving DecidableEq

/-- Raw JSON form of the whole document. -/
structure RawModel where
  version : String
  metadata : RawMetadata
  operations : StrMap RawOperation
  shapes : StrMap RawShape
  documentation : String
deriving DecidableEq

/-- serde's decoding of `Protocol`: exactly the four renames
`rest-json`, `json`, `rest-xml`, `query`; any other value is an
unknown-variant `DecodeError` (`none`). -/
def Protocol.fromString (s : String) : Option Protocol :=
  if s = "rest-json" then some Protocol.RestJson
  else if s = "json" then some Protocol.Json
  else if s = "rest-xml" then some Protocol.RestXml
  else if s = "query" then some Protocol.Query
  else none

/-- The four serde renames of the `Protocol` enum. -/
def protocolTags : StrList := ["rest-json", "json", "rest-xml", "query"]

/-- serde's decoding of `Signature`: only `v4`. -/
def Signature.fromString (s : String) : Option Signature :=
  if s = "v4" then some Signature.V4 else none

/-- Decoding of one structure member. The member's documentation is an
`Option<Markdown>`, so it IS normalized (`norm` = `html2md::parse_html`);
the reference, location and streaming flag are carried over. -/
def decodeMember (norm : String → String) (m : RawShapeMember) : ShapeMember :=
  ⟨⟨m.shape⟩, m.documentation.map (fun d => ⟨norm d⟩), m.location, m.streaming⟩

/-- Decoding of a structure's member table. -/
def decodeMembers (norm : String → String) (l : StrMap RawShapeMember) : StrMap ShapeMember :=
  l.map (fun p => (p.1, decodeMember norm p.2))

/-- The ten serde tags of the closed `Shape` variant set. -/
def shapeTypeTags : StrList :=
  ["structure", "string", "map", "list", "integer", "long", "double", "blob",
   "boolean", "timestamp"]

/-- serde's internally-tagged decoding of `Shape`, dispatching on `type`.
A `structure` keeps its `documentation` field verbatim as a raw
`Option String` (the only documentation field of the model that is NOT
normalized); `map` needs `key` and `value`; `list` needs `member`; a tag
outside the closed set is an unknown-variant `DecodeError` (`none`). -/
def decodeShape (norm : String → String) (rs : RawShape) : Option Shape :=
  if rs.type = "structure" then
    match rs.members with
    | some ms => some (Shape.Structure (decodeMembers norm ms) rs.documentation rs.required)
    | none => none
  else if rs.type = "string" then some (Shape.String rs.contents)
  else if rs.type = "map" then
    match rs.key, rs.value with
    | some k, some v => some (Shape.Map ⟨k⟩ ⟨v⟩)
    | _, _ => none
  else if rs.type = "list" then
    match rs.member with
    | some m => some (Shape.List ⟨m⟩)
    | none => none
  else if rs.type = "integer" then some (Shape.Integer rs.payload)
  else if rs.type = "long" then some (Shape.Long rs.payload)
  else if rs.type = "double" then some (Shape.Double rs.payload)
  else if rs.type = "blob" then some (Shape.Blob rs.payload)
  else if rs.type = "boolean" then some Shape.Boolean
  else if rs.type = "timestamp" then some Shape.Timestamp
  else none

/-- Decoding of the shapes table: each entry in order, failing on the first
entry that fails. -/
def decodeShapes (norm : String → String) : StrMap RawShape → Option (StrMap Shape)
  | [] => some []
  | (n, rs) :: rest =>
    match decodeShape norm rs with
    | none => none
    | some s =>
      match decodeShapes norm rest with
      | none => none
      | some ss => some ((n, s) :: ss)

/-- Decoding of one operation: validate the HTTP bindings, keep the
reference strings verbatim, normalize the documentation. -/
def decodeOperation (norm : String → String) (ro : RawOperation) : Option Operation :=
  match HttpBindings.tryFrom ro.http with
  | none => none
  | some h =>
    some ⟨ro.name, h, ⟨ro.input⟩, ro.output.map (fun o => ⟨o⟩),
      ro.errors.map (fun e => ⟨e⟩), ⟨norm ro.documentation⟩⟩

/-- Decoding of the operations table: each entry in order, failing on the
first entry that fails. -/
def decodeOperations (norm : String → String) : StrMap RawOperation → Option (StrMap Operation)
  | [] => some []
  | (n, ro) :: rest =>
    match decodeOperation norm ro with
    | none => none
    | some o =>
      match decodeOperations norm rest with
      | none => none
      | some os => some ((n, o) :: os)

/-- Decoding of the metadata: the two enumerated strings must be in their
closed sets. -/
def decodeMetadata (rm : RawMetadata) : Option Metadata :=
  match Protocol.fromString rm.protocol with
  | none => none
  | some p =>
    match Signature.fromString rm.signatureVersion with
    | none => none
    | some sv =>
      some ⟨rm.apiVersion, rm.endpointPrefix, p, rm.serviceFullName, rm.serviceId, sv⟩

/-- Decoding of a whole raw document into a `BotocoreModel` (the serde
derive on `BotocoreModel`): metadata, operations, shapes, and the top-level
documentation, which is normalized. Any component failure is a
`DecodeError` (`none`). -/
def decodeModel (norm : String → String) (raw : RawModel) : Option BotocoreModel :=
  match decodeMetadata raw.metadata with
  | none => none
  | some md =>
    match decodeOperations norm raw.operations with
    | none => none
    | some ops =>
      match decodeShapes norm raw.shapes with
      | none => none
      | some shs =>
        some ⟨raw.version, md, ops, shs, ⟨norm raw.documentation⟩⟩

/-- Key membership in an association table. -/
def hasKey (shapes : StrMap Shape) (k : String) : Bool :=
  (shapes.lookup k).isSome

/-- A list of by-name references. -/
abbrev RefList := List ShapeReference

/-- The by-name references nested one level inside a shape: member
references of a `Structure`, key and value of a `Map`, element of a `List`.
Scalar shapes hold no references. -/
def Shape.nestedRefs : Shape → RefList
  | Shape.Structure ms _ _ => ms.map (fun p => p.2.shape)
  | Shape.Map k v => [k, v]
  | Shape.List m => [m]
  | _ => []

/-- All references of an operation: input, optional output, errors. -/
def Operation.refs (op : Operation) : List ShapeReference :=
  op.input :: (op.output.toList ++ op.errors)

/-- The spec's reference-resolvability invariant: every `ShapeReference`
occurring anywhere in the model (operation positions and nested inside
shapes) names an existing key of the shapes table. -/
def modelRefsResolvable (m : BotocoreModel) : Bool :=
  m.operations.all (fun p => (Operation.refs p.2).all (fun r => hasKey m.shapes r.shape)) &&
  m.shapes.all (fun p => (Shape.nestedRefs p.2).all (fun r => hasKey m.shapes r.shape))

/-- Whether `needle` occurs at the head of `hay`. -/
def listStartsWith : List Char → List Char → Bool
  | [], _ => true
  | _ :: _, [] => false
  | a :: as, b :: bs => a == b && listStartsWith as bs

/-- Whether `needle` occurs contiguously anywhere in `hay`. -/
def listHasSub (needle : List Char) : List Char → Bool
  | [] => needle.isEmpty
  | b :: t => listStartsWith needle (b :: t) || listHasSub needle t

/-- Substring occurrence on strings, used to state that a message does or
does not mention a given name. -/
def strContainsSub (needle hay : String) : Bool :=
  listHasSub needle.toList hay.toList

/-! Concrete example values used by witnesses and counterexamples. -/

/-- A validated HTTP binding for examples. -/
def cHttp : HttpBindings := ⟨Method.GET, "/", none⟩

/-- An operation whose input reference names the absent key `Missing`. -/
def cOpMissingInput : Operation :=
  ⟨"GetThing", cHttp, ⟨"Missing"⟩, none, [], ⟨"d"⟩⟩

/-- An operation whose input reference names the absent key `OtherAbsent`. -/
def cOpOtherAbsent : Operation :=
  ⟨"GetOther", cHttp, ⟨"OtherAbsent"⟩, none, [], ⟨"d"⟩⟩

/-- An operation whose only error reference names the absent key
`MissingError`, while input and output are present in `cTable`. -/
def cOpMissingError : Operation :=
  ⟨"GetThing", cHttp, ⟨"A"⟩, some ⟨"B"⟩, [⟨"MissingError"⟩], ⟨"d"⟩⟩

/-- A small shapes table with three scalar entries. -/
def cTable : StrMap Shape :=
  [("A", Shape.Boolean), ("B", Shape.Timestamp), ("E", Shape.String [])]

/-- An operation whose input, output, and single error reference are all
present in `cTable`. -/
def cOpFull : Operation :=
  ⟨"Op", cHttp, ⟨"A"⟩, some ⟨"B"⟩, [⟨"E"⟩], ⟨"d"⟩⟩

/-- The resolution of `cOpFull` against `cTable`. -/
def cRes : ResolvedOperation :=
  ⟨"Op", cHttp, Shape.Boolean, some Shape.Timestamp, [Shape.String []], ⟨"d"⟩⟩

/-- A self-referential structure shape: its member `next` references the
enclosing table key `Node`. -/
def cNodeShape : Shape :=
  Shape.Structure [("next", ⟨⟨"Node"⟩, none, none, none⟩)] none none

/-- A cyclic shapes table: `Node` references itself through its member. -/
def cNodeTable : StrMap Shape := [("Node", cNodeShape)]

/-- An operation whose input is the self-referential shape `Node`. -/
def cNodeOp : Operation := ⟨"GetNode", cHttp, ⟨"Node"⟩, none, [], ⟨"d"⟩⟩

/-- The resolution of `cNodeOp` against the cyclic table. -/
def cNodeRes : ResolvedOperation :=
  ⟨"GetNode", cHttp, cNodeShape, none, [], ⟨"d"⟩⟩

/-- Well-formed raw metadata. -/
def cRawMetaOk : RawMetadata :=
  ⟨"2015-03-31", "svc", "rest-json", "Service", "Service", "v4"⟩

/-- A raw document whose protocol value is the unrecognized `soap`. -/
def cRawSoap : RawModel :=
  ⟨"2.0", ⟨"2015-03-31", "svc", "soap", "Service", "Service", "v4"⟩, [], [], "doc"⟩

/-- A raw document whose signature version is the unrecognized `v5`. -/
def cRawV5 : RawModel :=
  ⟨"2.0", ⟨"2015-03-31", "svc", "rest-json", "Service", "Service", "v5"⟩, [], [], "doc"⟩

/-- A raw shape whose `type` tag is the unrecognized `enum-legacy`. -/
def cBadRawShape : RawShape :=
  ⟨"enum-legacy", none, none, none, none, none, none, [], ⟨""⟩⟩

/-- A raw document containing `cBadRawShape`. -/
def cRawBadTag : RawModel :=
  ⟨"2.0", cRawMetaOk, [], [("Bad", cBadRawShape)], "doc"⟩

/-- A raw document whose single operation references the key `Missing`,
which is absent from its (empty) shapes table. -/
def cRawDangling : RawModel :=
  ⟨"2.0", cRawMetaOk,
   [("GetThing", ⟨"GetThing", ⟨"GET", "/thing", none⟩, "Missing", none, [], "op doc"⟩)],
   [], "doc"⟩

/-- The model `cRawDangling` decodes to (with the identity normalizer): its
operation holds a dangling reference to `Missing`. -/
def cModelDangling : BotocoreModel :=
  ⟨"2.0", ⟨"2015-03-31", "svc", Protocol.RestJson, "Service", "Service", Signature.V4⟩,
   [("GetThing", ⟨"GetThing", ⟨Method.GET, "/thing", none⟩, ⟨"Missing"⟩, none, [], ⟨"op doc"⟩⟩)],
   [], ⟨"doc"⟩⟩

/-- A normalizer that maps every input to the constant `normalized`: its
output is clearly distinguishable from any raw input. -/
def cNorm : String → String := fun _ => "normalized"

/-- A raw structure shape whose own documentation and whose member
documentation both carry raw HTML markup. -/
def cRawStruct : RawShape :=
  ⟨"structure", some [("field", ⟨"FieldShape", some "<i>member doc</i>", none, none⟩)],
   some "<p>raw html</p>", none, none, none, none, [], ⟨""⟩⟩

/-- The shape `cRawStruct` decodes to under `cNorm`: the structure-level
documentation keeps its raw HTML while the member documentation was
normalized. -/
def cStructDecoded : Shape :=
  Shape.Structure [("field", ⟨⟨"FieldShape"⟩, some ⟨"normalized"⟩, none, none⟩)]
    (some "<p>raw html</p>") none

/-- A raw operation carrying HTML documentation. -/
def cRawOpDoc : RawOperation :=
  ⟨"Op", ⟨"GET", "/", none⟩, "In", none, [], "<p>op doc</p>"⟩

/-- The operation `cRawOpDoc` decodes to under `cNorm`: its documentation
was normalized. -/
def cOpDecoded : Operation :=
  ⟨"Op", ⟨Method.GET, "/", none⟩, ⟨"In"⟩, none, [], ⟨"normalized"⟩⟩

/-- A raw structure member with HTML documentation. -/
def cRawMemberDoc : RawShapeMember :=
  ⟨"FieldShape", some "<i>member doc</i>", none, none⟩

/-! Helper lemmas about the resolver. -/

/-- One lookup succeeds exactly on present keys, returning the entry. -/
theorem lookupShape_ok_iff (shapes : StrMap Shape) (r : ShapeReference) (s : Shape) :
    lookupShape shapes r = Except.ok s ↔ shapes.lookup r.shape = some s := by
  unfold lookupShape
  cases h : shapes.lookup r.shape <;> simp

/-- Every failure of a single lookup carries the constant panic message. -/
theorem lookupShape_error_msg (shapes : StrMap Shape) (r : ShapeReference) (e : String)
    (h : lookupShape shapes r = Except.error e) : e = panicMsg := by
  unfold lookupShape at h
  cases hl : shapes.lookup r.shape <;> rw [hl] at h
  · exact (Except.error.inj h).symm
  · exact Except.noConfusion h

/-- Every failure of the output lookup carries the constant panic message. -/
theorem resolveOutput_error_msg (shapes : StrMap Shape) (o : Option ShapeReference) (e : String)
    (h : resolveOutput shapes o = Except.error e) : e = panicMsg := by
  cases o with
  | none => exact Except.noConfusion h
  | some r =>
    simp only [resolveOutput] at h
    cases hl : lookupShape shapes r <;> rw [hl] at h
    case ok s => exact Except.noConfusion h
    case error e2 =>
      rw [← Except.error.inj h]
      exact lookupShape_error_msg shapes r e2 hl

/-- Every failure of the error-list lookups carries the constant panic
message. -/
theorem lookupShapes_error_msg (shapes : StrMap Shape) :
    ∀ (l : List ShapeReference) (e : String),
      lookupShapes shapes l = Except.error e → e = panicMsg := by
  intro l
  induction l with
  | nil => intro e h; exact Except.noConfusion h
  | cons r rest ih =>
    intro e h
    unfold lookupShapes at h
    cases hl : lookupShape shapes r <;> rw [hl] at h
    case error e2 =>
      rw [← Except.error.inj h]
      exact lookupShape_error_msg shapes r e2 hl
    case ok s =>
      cases hr : lookupShapes shapes rest <;> rw [hr] at h
      case ok ss => exact Except.noConfusion h
      case error e2 =>
        rw [← Except.error.inj h]
        exact ih e2 hr

/-- A successful error-list resolution pairs each reference, in order, with
the table entry it names. -/
theorem lookupShapes_ok_forall₂ (shapes : StrMap Shape) :
    ∀ (l : List ShapeReference) (ss : List Shape), lookupShapes shapes l = Except.ok ss →
      List.Forall₂ (fun r s => shapes.lookup r.shape = some s) l ss := by
  intro l
  induction l with
  | nil =>
    intro ss h
    obtain rfl : ([] : List Shape) = ss := Except.ok.inj h
    exact List.Forall₂.nil
  | cons r rest ih =>
    intro ss h
    unfold lookupShapes at h
    cases hl : lookupShape shapes r <;> rw [hl] at h
    case error e => exact Except.noConfusion h
    case ok s =>
      cases hr : lookupShapes shapes rest <;> rw [hr] at h
      case error e => exact Except.noConfusion h
      case ok ss2 =>
        obtain rfl : s :: ss2 = ss := Except.ok.inj h
        exact List.Forall₂.cons ((lookupShape_ok_iff shapes r s).mp hl) (ih ss2 hr)

/-- When every reference of the list is present, the error-list resolution
succeeds. -/
theorem lookupShapes_all_ok (shapes : StrMap Shape) :
    ∀ l : List ShapeReference, (∀ r ∈ l, (shapes.lookup r.shape).isSome) →
      ∃ ss, lookupShapes shapes l = Except.ok ss := by
  intro l
  induction l with
  | nil => exact fun _ => ⟨[], rfl⟩
  | cons r rest ih =>
    intro h
    obtain ⟨s, hs⟩ := Option.isSome_iff_exists.mp (h r (List.mem_cons_self r rest))
    obtain ⟨ss, hss⟩ := ih (fun x hx => h x (List.mem_cons_of_mem r hx))
    refine ⟨s :: ss, ?_⟩
    unfold lookupShapes
    simp only [(lookupShape_ok_iff shapes r s).mpr hs, hss]

/-- A successful resolution determines every component: the input, output
and error shapes are the table entries named by the operation, and the
name, http bindings and documentation are carried over unchanged. -/
theorem resolve_ok_parts (op : Operation) (shapes : StrMap Shape) (res : ResolvedOperation)
    (h : resolve op shapes = Except.ok res) :
    shapes.lookup op.input.shape = some res.input
    ∧ List.Forall₂ (fun (r : ShapeReference) (s : Shape) => shapes.lookup r.shape = some s)
        op.output.toList res.output.toList
    ∧ List.Forall₂ (fun (r : ShapeReference) (s : Shape) => shapes.lookup r.shape = some s)
        op.errors res.errors
    ∧ res.name = op.name ∧ res.http = op.http ∧ res.documentation = op.documentation := by
  unfold resolve at h
  split at h
  next e heq => exact Except.noConfusion h
  next si h1 =>
  split at h
  next e heq => exact Except.noConfusion h
  next so h2 =>
  split at h
  next e heq => exact Except.noConfusion h
  next ses h3 =>
  obtain rfl : (⟨op.name, op.http, si, so, ses, op.documentation⟩ : ResolvedOperation) = res :=
    Except.ok.inj h
  refine ⟨(lookupShape_ok_iff shapes op.input si).mp h1, ?_,
    lookupShapes_ok_forall₂ shapes op.errors ses h3, rfl, rfl, rfl⟩
  show List.Forall₂ _ op.output.toList so.toList
  cases ho : op.output with
  | none =>
    rw [ho] at h2
    obtain rfl : (none : Option Shape) = so := Except.ok.inj h2
    exact List.Forall₂.nil
  | some r =>
    rw [ho] at h2
    simp only [resolveOutput] at h2
    cases hr : lookupShape shapes r <;> rw [hr] at h2
    case error e => exact Except.noConfusion h2
    case ok s =>
      obtain rfl : some s = so := Except.ok.inj h2
      exact List.Forall₂.cons ((lookupShape_ok_iff shapes r s).mp hr) List.Forall₂.nil

/-- Every failure of `resolve` carries the constant panic message. -/
theorem resolve_error_msg (op : Operation) (shapes : StrMap Shape) (e : String)
    (h : resolve op shapes = Except.error e) : e = panicMsg := by
  unfold resolve at h
  split at h
  next e1 h1 =>
    rw [← Except.error.inj h]
    exact lookupShape_error_msg shapes op.input e1 h1
  next si h1 =>
  split at h
  next e2 h2 =>
    rw [← Except.error.inj h]
    exact resolveOutput_error_msg shapes op.output e2 h2
  next so h2 =>
  split at h
  next e3 h3 =>
    rw [← Except.error.inj h]
    exact lookupShapes_error_msg shapes op.errors e3 h3
  next ses h3 => exact Except.noConfusion h

/-- Left projection of a pointwise relation between two lists. -/
theorem forall₂_exists_left {α β : Type} {R : α → β → Prop} {l : List α} {l2 : List β}
    (h : List.Forall₂ R l l2) : ∀ a ∈ l, ∃ b, R a b := by
  induction h with
  | nil => intro a ha; exact absurd ha (List.not_mem_nil a)
  | cons hr ht ih =>
    intro a ha
    rcases List.mem_cons.mp ha with h1 | h2
    · subst h1; exact ⟨_, hr⟩
    · exact ih a h2

/-- Right projection of a pointwise relation between two lists. -/
theorem forall₂_exists_right {α β : Type} {R : α → β → Prop} {l : List α} {l2 : List β}
    (h : List.Forall₂ R l l2) : ∀ b ∈ l2, ∃ a, R a b := by
  induction h with
  | nil => intro b hb; exact absurd hb (List.not_mem_nil b)
  | cons hr ht ih =>
    intro b hb
    rcases List.mem_cons.mp hb with h1 | h2
    · subst h1; exact ⟨_, hr⟩
    · exact ih b h2

/-- Claim C1 (counterexample): resolving an operation that references a key
absent from the table does fail, but not with an error naming the missing
key: the failure is the `HashMap` indexing panic, whose message is the
constant `no entry found for key` -- the same value for both missing keys
`Missing` and `OtherAbsent`, and containing neither. No
`UnresolvedShapeError` value exists in the program. -/
theorem resolve_missing_key_unnamed :
    resolve cOpMissingInput [] = Except.error panicMsg
    ∧ resolve cOpOtherAbsent [] = Except.error panicMsg
    ∧ strContainsSub "Missing" panicMsg = false
    ∧ strContainsSub "OtherAbsent" panicMsg = false :=
  ⟨rfl, rfl, rfl, rfl⟩

/-- Claim C1 (amended): for every operation and shapes table in which some
referenced shape name (input, any error, or output position) is absent from
the table, resolution fails -- via the `HashMap` indexing panic with the
fixed message `no entry found for key` -- rather than succeeding; the
failure does not name the missing key. -/
theorem resolve_missing_key_panics (op : Operation) (shapes : StrMap Shape)
    (h : ∃ r ∈ Operation.refs op, shapes.lookup r.shape = none) :
    resolve op shapes = Except.error panicMsg := by
  cases hres : resolve op shapes with
  | error e => rw [resolve_error_msg op shapes e hres]
  | ok res =>
    exfalso
    obtain ⟨r, hr, hnone⟩ := h
    obtain ⟨hin, hout, herr, _⟩ := resolve_ok_parts op shapes res hres
    unfold Operation.refs at hr
    rcases List.mem_cons.mp hr with h1 | h2
    · subst h1
      rw [hnone] at hin
      exact Option.noConfusion hin
    · rcases List.mem_append.mp h2 with h3 | h4
      · obtain ⟨s, hs⟩ := forall₂_exists_left hout r h3
        rw [hnone] at hs
        exact Option.noConfusion hs
      · obtain ⟨s, hs⟩ := forall₂_exists_left herr r h4
        rw [hnone] at hs
        exact Option.noConfusion hs

/-- Claim C1 (witness): the amended statement at a concrete input: the
operation `cOpMissingError` references the key `MissingError`, absent from
`cTable`, in its error position, and resolution panics. -/
theorem resolve_missing_key_panics_witness :
    (∃ r ∈ Operation.refs cOpMissingError, cTable.lookup r.shape = none)
    ∧ resolve cOpMissingError cTable = Except.error panicMsg :=
  ⟨⟨⟨"MissingError"⟩, by decide, by decide⟩,
   resolve_missing_key_panics cOpMissingError cTable
     ⟨⟨"MissingError"⟩, by decide, by decide⟩⟩

/-- Claim C5: for every operation whose input reference key, every error
reference key, and (when present) output reference key all exist in the
shapes table, resolution succeeds, and the input shape, the optional output
shape, and each error shape is structurally equal to the table entry for
the corresponding key, with the errors in the same order and count as the
operation's error references. -/
theorem resolve_all_present (op : Operation) (shapes : StrMap Shape)
    (hin : (shapes.lookup op.input.shape).isSome)
    (hout : ∀ r ∈ op.output.toList, (shapes.lookup r.shape).isSome)
    (herr : ∀ r ∈ op.errors, (shapes.lookup r.shape).isSome) :
    ∃ res, resolve op shapes = Except.ok res
      ∧ shapes.lookup op.input.shape = some res.input
      ∧ List.Forall₂ (fun (r : ShapeReference) (s : Shape) => shapes.lookup r.shape = some s)
          op.output.toList res.output.toList
      ∧ List.Forall₂ (fun (r : ShapeReference) (s : Shape) => shapes.lookup r.shape = some s)
          op.errors res.errors
      ∧ res.errors.length = op.errors.length := by
  obtain ⟨si, hsi⟩ := Option.isSome_iff_exists.mp hin
  obtain ⟨ses, hses⟩ := lookupShapes_all_ok shapes op.errors herr
  have hsome : ∃ so, resolveOutput shapes op.output = Except.ok so := by
    cases ho : op.output with
    | none => exact ⟨none, rfl⟩
    | some r =>
      have hr := hout r (by rw [ho]; exact List.mem_cons_self r [])
      obtain ⟨s, hs⟩ := Option.isSome_iff_exists.mp hr
      refine ⟨some s, ?_⟩
      simp only [resolveOutput, (lookupShape_ok_iff shapes r s).mpr hs]
  obtain ⟨so, hso⟩ := hsome
  have hres : resolve op shapes = Except.ok ⟨op.name, op.http, si, so, ses, op.documentation⟩ := by
    unfold resolve
    simp only [(lookupShape_ok_iff shapes op.input si).mpr hsi, hso, hses]
  obtain ⟨h1, h2, h3, _⟩ := resolve_ok_parts op shapes _ hres
  exact ⟨_, hres, h1, h2, h3, (List.Forall₂.length_eq h3).symm⟩

/-- Claim C5 (witness): the operation `cOpFull`, whose input `A`, output `B`
and error `E` are all present in `cTable`, resolves to the table entries. -/
theorem resolve_all_present_witness :
    ∃ res, resolve cOpFull cTable = Except.ok res
      ∧ cTable.lookup cOpFull.input.shape = some res.input
      ∧ List.Forall₂ (fun (r : ShapeReference) (s : Shape) => cTable.lookup r.shape = some s)
          cOpFull.output.toList res.output.toList
      ∧ List.Forall₂ (fun (r : ShapeReference) (s : Shape) => cTable.lookup r.shape = some s)
          cOpFull.errors res.errors
      ∧ res.errors.length = cOpFull.errors.length :=
  resolve_all_present cOpFull cTable (by decide) (by decide) (by decide)

/-- Claim C6: resolution is exactly one hop deep. `resolve` performs one
table lookup per reference and no recursion through the table, so it is
total on every table, including cyclic ones; every shape in a successful
resolution is verbatim a table entry, so the nested references inside a
resolved `Structure` (and the key/value/member references of `Map` and
`List` shapes) remain by-name `ShapeReference`s and are not further
expanded. No acyclicity assumption is made on the table. -/
theorem resolve_one_hop (op : Operation) (shapes : StrMap Shape) (res : ResolvedOperation)
    (h : resolve op shapes = Except.ok res) :
    ∀ s ∈ res.input :: (res.output.toList ++ res.errors), ∃ k, shapes.lookup k = some s := by
  obtain ⟨hin, hout, herr, _⟩ := resolve_ok_parts op shapes res h
  intro s hs
  rcases List.mem_cons.mp hs with h1 | h2
  · subst h1; exact ⟨op.input.shape, hin⟩
  · rcases List.mem_append.mp h2 with h3 | h4
    · obtain ⟨r, hr⟩ := forall₂_exists_right hout s h3
      exact ⟨r.shape, hr⟩
    · obtain ⟨r, hr⟩ := forall₂_exists_right herr s h4
      exact ⟨r.shape, hr⟩

/-- Claim C6 (witness): resolving against the cyclic table `cNodeTable`,
whose entry `Node` references itself through its member `next`, terminates
with the verbatim entry, whose nested reference still names `Node` by name
(it is not expanded). -/
theorem resolve_one_hop_witness :
    resolve cNodeOp cNodeTable = Except.ok cNodeRes
    ∧ Shape.nestedRefs cNodeRes.input = [⟨"Node"⟩]
    ∧ ∀ s ∈ cNodeRes.input :: (cNodeRes.output.toList ++ cNodeRes.errors),
        ∃ k, cNodeTable.lookup k = some s :=
  ⟨rfl, rfl, resolve_one_hop cNodeOp cNodeTable cNodeRes rfl⟩

/-- Claim C7: resolution is pure and leaves non-shape fields unchanged: the
embedding of `resolve` is a function of its two arguments (the Rust function
takes the table by shared reference and only reads it), any successful
result carries the operation's name, http bindings and documentation
unchanged, and equal inputs give structurally equal outputs. -/
theorem resolve_frame (op : Operation) (shapes : StrMap Shape) :
    (∀ res, resolve op shapes = Except.ok res →
      res.name = op.name ∧ res.http = op.http ∧ res.documentation = op.documentation)
    ∧ (∀ (op2 : Operation) (shapes2 : StrMap Shape), op = op2 → shapes = shapes2 →
        resolve op shapes = resolve op2 shapes2) := by
  constructor
  · intro res h
    obtain ⟨_, _, _, hn, hh, hd⟩ := resolve_ok_parts op shapes res h
    exact ⟨hn, hh, hd⟩
  · intro op2 shapes2 h1 h2
    rw [h1, h2]

/-- Claim C7 (witness): at the concrete operation `cOpFull` and table
`cTable`: the resolved name, http bindings and documentation equal the
source operation's, and re-invocation gives an equal result. -/
theorem resolve_frame_witness :
    (cRes.name = cOpFull.name ∧ cRes.http = cOpFull.http
      ∧ cRes.documentation = cOpFull.documentation)
    ∧ resolve cOpFull cTable = resolve cOpFull cTable :=
  ⟨(resolve_frame cOpFull cTable).1 cRes rfl,
   (resolve_frame cOpFull cTable).2 cOpFull cTable rfl rfl⟩

/-- Claim C2 (counterexample): the token `FETCH` is not rejected: it is not
a canonical HTTP method, yet binding validation accepts it as an extension
method, because `http::Method::from_bytes` accepts every non-empty RFC 7230
token. -/
theorem method_fetch_accepted :
    HttpBindings.tryFrom ⟨"FETCH", "/2015-03-31/functions", none⟩
      = some ⟨Method.Extension "FETCH", "/2015-03-31/functions", none⟩ := rfl

/-- Claim C2 (amended): binding validation accepts the method token iff it
is a non-empty RFC 7230 token: `GET`, `POST` and `DELETE` are accepted as
canonical methods and the empty token is rejected, as claimed, but
unrecognized tokens made of token characters, such as `FETCH`, are accepted
as extension methods rather than rejected. -/
theorem method_token_validation :
    HttpBindings.tryFrom ⟨"GET", "/", none⟩ = some ⟨Method.GET, "/", none⟩
    ∧ HttpBindings.tryFrom ⟨"POST", "/", none⟩ = some ⟨Method.POST, "/", none⟩
    ∧ HttpBindings.tryFrom ⟨"DELETE", "/", none⟩ = some ⟨Method.DELETE, "/", none⟩
    ∧ HttpBindings.tryFrom ⟨"", "/", none⟩ = none
    ∧ HttpBindings.tryFrom ⟨"FETCH", "/", none⟩ = some ⟨Method.Extension "FETCH", "/", none⟩
    ∧ ∀ t : String,
        (Method.fromBytes t).isSome = (!(t.length == 0) && t.toList.all isMethodChar) := by
  refine ⟨rfl, rfl, rfl, rfl, rfl, ?_⟩
  intro t
  unfold Method.fromBytes
  split_ifs with h0 h1 h2 h3 h4 h5 h6 h7 h8 h9
  · simp [h0]
  · subst h1; decide
  · subst h2; decide
  · subst h3; decide
  · subst h4; decide
  · subst h5; decide
  · subst h6; decide
  · subst h7; decide
  · subst h8; decide
  · subst h9; decide
  · unfold extensionInline
    have hlen : (t.length == 0) = false := by simp [h0]
    rw [hlen]
    split_ifs with ha
    · rw [ha]; rfl
    · simp only [Bool.not_eq_true] at ha
      rw [ha]; rfl

/-- Claim C3 (counterexample): the response code 600 is not rejected:
`http::StatusCode::from_u16` accepts every value from 100 to 999, so
binding validation accepts 600. -/
theorem status_600_accepted :
    HttpBindings.tryFrom ⟨"GET", "/", some 600⟩ = some ⟨Method.GET, "/", some 600⟩ := rfl

/-- Claim C3 (amended): a present response code is accepted iff it lies in
the range 100 to 999: the codes 0 and 99 are rejected and 200, 404 and 503
accepted, as claimed, and no value is truncated or defaulted, but 600 --
not a valid registered HTTP status, yet three digits -- is accepted rather
than rejected. -/
theorem status_code_range :
    HttpBindings.tryFrom ⟨"GET", "/", some 0⟩ = none
    ∧ HttpBindings.tryFrom ⟨"GET", "/", some 99⟩ = none
    ∧ HttpBindings.tryFrom ⟨"GET", "/", some 200⟩ = some ⟨Method.GET, "/", some 200⟩
    ∧ HttpBindings.tryFrom ⟨"GET", "/", some 404⟩ = some ⟨Method.GET, "/", some 404⟩
    ∧ HttpBindings.tryFrom ⟨"GET", "/", some 503⟩ = some ⟨Method.GET, "/", some 503⟩
    ∧ ∀ v : Nat, v < 65536 → ((StatusCode.fromU16 v).isSome ↔ 100 ≤ v ∧ v ≤ 999) := by
  refine ⟨rfl, rfl, rfl, rfl, rfl, ?_⟩
  intro v _
  unfold StatusCode.fromU16
  split_ifs with h
  · simp only [Option.isSome_none, Bool.false_eq_true, false_iff]
    omega
  · simp only [Option.isSome_some, true_iff]
    omega

/-- Claim C3 (witness): the range characterization applied at the `u16`
value 600, which is accepted. -/
theorem status_code_range_witness :
    (600 : Nat) < 65536 ∧ ((StatusCode.fromU16 600).isSome ↔ 100 ≤ 600 ∧ 600 ≤ 999) :=
  ⟨by decide, status_code_range.2.2.2.2.2 600 (by decide)⟩

/-- An unrecognized protocol string is rejected. -/
theorem protocol_fromString_none (s : String) (h : s ∉ protocolTags) :
    Protocol.fromString s = none := by
  unfold Protocol.fromString
  split_ifs with h1 h2 h3 h4
  · exact absurd (by rw [h1]; decide) h
  · exact absurd (by rw [h2]; decide) h
  · exact absurd (by rw [h3]; decide) h
  · exact absurd (by rw [h4]; decide) h
  · rfl

/-- An unrecognized signature-version string is rejected. -/
theorem signature_fromString_none (s : String) (h : s ≠ "v4") :
    Signature.fromString s = none := by
  unfold Signature.fromString
  rw [if_neg h]

/-- A shape whose tag lies outside the closed set is rejected. -/
theorem decodeShape_none_of_bad_tag (norm : String → String) (rs : RawShape)
    (h : rs.type ∉ shapeTypeTags) : decodeShape norm rs = none := by
  have h1 : ¬rs.type = "structure" := fun he => h (by rw [he]; decide)
  have h2 : ¬rs.type = "string" := fun he => h (by rw [he]; decide)
  have h3 : ¬rs.type = "map" := fun he => h (by rw [he]; decide)
  have h4 : ¬rs.type = "list" := fun he => h (by rw [he]; decide)
  have h5 : ¬rs.type = "integer" := fun he => h (by rw [he]; decide)
  have h6 : ¬rs.type = "long" := fun he => h (by rw [he]; decide)
  have h7 : ¬rs.type = "double" := fun he => h (by rw [he]; decide)
  have h8 : ¬rs.type = "blob" := fun he => h (by rw [he]; decide)
  have h9 : ¬rs.type = "boolean" := fun he => h (by rw [he]; decide)
  have h10 : ¬rs.type = "timestamp" := fun he => h (by rw [he]; decide)
  unfold decodeShape
  rw [if_neg h1, if_neg h2, if_neg h3, if_neg h4, if_neg h5, if_neg h6, if_neg h7,
    if_neg h8, if_neg h9, if_neg h10]

/-- If any entry of the shapes table fails to decode, the whole table fails
to decode. -/
theorem decodeShapes_none (norm : String → String) :
    ∀ (l : StrMap RawShape) (n : String) (rs : RawShape), (n, rs) ∈ l →
      decodeShape norm rs = none → decodeShapes norm l = none := by
  intro l
  induction l with
  | nil => intro n rs hp; exact absurd hp (List.not_mem_nil (n, rs))
  | cons a rest ih =>
    intro n rs hp hbad
    obtain ⟨an, ars⟩ := a
    unfold decodeShapes
    rcases List.mem_cons.mp hp with h1 | h2
    · injection h1 with hn hr
      subst hn; subst hr
      rw [hbad]
    · cases hd : decodeShape norm ars
      · rfl
      · rw [ih n rs h2 hbad]

/-- Metadata fails to decode when its protocol fails. -/
theorem decodeMetadata_none_protocol (rm : RawMetadata)
    (h : Protocol.fromString rm.protocol = none) : decodeMetadata rm = none := by
  unfold decodeMetadata
  rw [h]

/-- Metadata fails to decode when its signature version fails. -/
theorem decodeMetadata_none_signature (rm : RawMetadata)
    (h : Signature.fromString rm.signatureVersion = none) : decodeMetadata rm = none := by
  unfold decodeMetadata
  cases hp : Protocol.fromString rm.protocol
  · rfl
  · rw [h]

/-- The whole document fails to decode when its metadata fails. -/
theorem decodeModel_none_md (norm : String → String) (raw : RawModel)
    (h : decodeMetadata raw.metadata = none) : decodeModel norm raw = none := by
  unfold decodeModel
  rw [h]

/-- The whole document fails to decode when its shapes table fails. -/
theorem decodeModel_none_shapes (norm : String → String) (raw : RawModel)
    (h : decodeShapes norm raw.shapes = none) : decodeModel norm raw = none := by
  unfold decodeModel
  cases hm : decodeMetadata raw.metadata
  · rfl
  · cases ho : decodeOperations norm raw.operations
    · rfl
    · rw [h]

/-- A successful decode of an operations table pairs each raw entry, in
order, with its decoded form. -/
theorem decodeOperations_forall₂ (norm : String → String) :
    ∀ (l : StrMap RawOperation) (ops : StrMap Operation),
      decodeOperations norm l = some ops →
      List.Forall₂ (fun p q => q.1 = p.1 ∧ decodeOperation norm p.2 = some q.2) l ops := by
  intro l
  induction l with
  | nil =>
    intro ops h
    obtain rfl : ([] : StrMap Operation) = ops := Option.some.inj h
    exact List.Forall₂.nil
  | cons a rest ih =>
    intro ops h
    obtain ⟨n, ro⟩ := a
    unfold decodeOperations at h
    cases hd : decodeOperation norm ro <;> rw [hd] at h
    · exact Option.noConfusion h
    case some o =>
      cases hr : decodeOperations norm rest <;> rw [hr] at h
      · exact Option.noConfusion h
      case some os =>
        obtain rfl : (n, o) :: os = ops := Option.some.inj h
        exact List.Forall₂.cons ⟨rfl, hd⟩ (ih os hr)

/-- A successful decode of the whole document determines its components. -/
theorem decodeModel_ok_parts (norm : String → String) (raw : RawModel) (m : BotocoreModel)
    (h : decodeModel norm raw = some m) :
    ∃ md ops shs, decodeMetadata raw.metadata = some md
      ∧ decodeOperations norm raw.operations = some ops
      ∧ decodeShapes norm raw.shapes = some shs
      ∧ m = ⟨raw.version, md, ops, shs, ⟨norm raw.documentation⟩⟩ := by
  unfold decodeModel at h
  cases h1 : decodeMetadata raw.metadata <;> rw [h1] at h
  · exact Option.noConfusion h
  case some md =>
  cases h2 : decodeOperations norm raw.operations <;> rw [h2] at h
  · exact Option.noConfusion h
  case some ops =>
  cases h3 : decodeShapes norm raw.shapes <;> rw [h3] at h
  · exact Option.noConfusion h
  case some shs =>
    exact ⟨md, ops, shs, rfl, rfl, rfl, (Option.some.inj h).symm⟩

/-- Mapping a string list into references and back is the identity. -/
theorem refs_map_roundtrip :
    ∀ l : StrList, (l.map (fun e => (⟨e⟩ : ShapeReference))).map (fun r => r.shape) = l := by
  intro l
  induction l with
  | nil => rfl
  | cons a t ih =>
    simp only [List.map_cons]
    rw [ih]

/-- Claim C8: for every raw document whose protocol value is outside the
enumerated set, whose signature version is not `v4`, or that contains a
shape whose `type` tag is outside the closed set of ten shape kinds,
decoding fails with a `DecodeError` (`none`) rather than substituting a
silent default -- for every normalizer. -/
theorem decode_rejects_unknown_enums (norm : String → String) (raw : RawModel) :
    (raw.metadata.protocol ∉ protocolTags → decodeModel norm raw = none)
    ∧ (raw.metadata.signatureVersion ≠ "v4" → decodeModel norm raw = none)
    ∧ (∀ p ∈ raw.shapes, p.2.type ∉ shapeTypeTags → decodeModel norm raw = none) := by
  refine ⟨?_, ?_, ?_⟩
  · intro h
    exact decodeModel_none_md norm raw
      (decodeMetadata_none_protocol raw.metadata (protocol_fromString_none _ h))
  · intro h
    exact decodeModel_none_md norm raw
      (decodeMetadata_none_signature raw.metadata (signature_fromString_none _ h))
  · intro p hp h
    exact decodeModel_none_shapes norm raw
      (decodeShapes_none norm raw.shapes p.1 p.2 hp (decodeShape_none_of_bad_tag norm p.2 h))

/-- Claim C8 (witness): the unrecognized protocol `soap`, the unrecognized
signature version `v5`, and the unrecognized shape tag `enum-legacy` each
make decoding fail on a concrete raw document. -/
theorem decode_rejects_unknown_enums_witness :
    decodeModel (fun s => s) cRawSoap = none
    ∧ decodeModel (fun s => s) cRawV5 = none
    ∧ decodeModel (fun s => s) cRawBadTag = none :=
  ⟨(decode_rejects_unknown_enums (fun s => s) cRawSoap).1 (by decide),
   (decode_rejects_unknown_enums (fun s => s) cRawV5).2.1 (by decide),
   (decode_rejects_unknown_enums (fun s => s) cRawBadTag).2.2 ("Bad", cBadRawShape)
     (by decide) (by decide)⟩

/-- Claim C9 (counterexample): a raw document whose operation references
the key `Missing`, absent from its empty shapes table, decodes
successfully, and the decoded model violates the reference-resolvability
invariant: decoding does not enforce it. -/
theorem decode_dangling_reference :
    decodeModel (fun s => s) cRawDangling = some cModelDangling
    ∧ modelRefsResolvable cModelDangling = false :=
  ⟨rfl, rfl⟩

/-- Claim C9 (amended): decoding does not validate references against the
shapes table: every reference string of the raw document is copied into the
decoded model verbatim, with no membership check, so a successfully decoded
model need not satisfy the resolvability invariant
(`decode_dangling_reference`); the invariant is a precondition of
resolution, not a guarantee of decoding. -/
theorem decode_refs_verbatim (norm : String → String) (raw : RawModel) (m : BotocoreModel)
    (h : decodeModel norm raw = some m) :
    List.Forall₂ (fun (p : String × RawOperation) (q : String × Operation) =>
        q.1 = p.1 ∧ q.2.input.shape = p.2.input
        ∧ q.2.output.map (fun r => r.shape) = p.2.output
        ∧ q.2.errors.map (fun r => r.shape) = p.2.errors)
      raw.operations m.operations := by
  obtain ⟨md, ops, shs, h1, h2, h3, rfl⟩ := decodeModel_ok_parts norm raw m h
  refine List.Forall₂.imp ?_ (decodeOperations_forall₂ norm raw.operations ops h2)
  intro p q hq
  obtain ⟨hq1, hq2⟩ := hq
  unfold decodeOperation at hq2
  cases hh : HttpBindings.tryFrom p.2.http <;> rw [hh] at hq2
  · exact Option.noConfusion hq2
  case some hb =>
    have heq := Option.some.inj hq2
    refine ⟨hq1, ?_, ?_, ?_⟩
    · rw [← heq]
    · rw [← heq]
      cases hv : p.2.output <;> rfl
    · rw [← heq]
      exact refs_map_roundtrip p.2.errors

/-- Claim C9 (witness of the amended statement): the raw document
`cRawDangling` decodes with its reference strings copied verbatim. -/
theorem decode_refs_verbatim_witness :
    List.Forall₂ (fun (p : String × RawOperation) (q : String × Operation) =>
        q.1 = p.1 ∧ q.2.input.shape = p.2.input
        ∧ q.2.output.map (fun r => r.shape) = p.2.output
        ∧ q.2.errors.map (fun r => r.shape) = p.2.errors)
      cRawDangling.operations cModelDangling.operations :=
  decode_refs_verbatim (fun s => s) cRawDangling cModelDangling rfl

/-- Claim C10: documentation attached to a `Structure` shape is stored
verbatim as the raw input string and is never normalized, while the
model-level, operation-level and member-level documentation fields are all
passed through the normalizer at decode time -- stated for an arbitrary
normalizer `norm`, hence in particular for `html2md::parse_html`. -/
theorem structure_doc_verbatim (norm : String → String) (rs : RawShape) (ro : RawOperation)
    (rm : RawShapeMember) (raw : RawModel) :
    (∀ s, rs.type = "structure" → decodeShape norm rs = some s →
      ∃ ms, rs.members = some ms
        ∧ s = Shape.Structure (decodeMembers norm ms) rs.documentation rs.required)
    ∧ (∀ o, decodeOperation norm ro = some o →
        o.documentation = Markdown.mk (norm ro.documentation))
    ∧ (decodeMember norm rm).documentation = rm.documentation.map (fun d => Markdown.mk (norm d))
    ∧ (∀ m, decodeModel norm raw = some m →
        m.documentation = Markdown.mk (norm raw.documentation)) := by
  refine ⟨?_, ?_, rfl, ?_⟩
  · intro s ht h
    unfold decodeShape at h
    rw [if_pos ht] at h
    cases hm : rs.members <;> rw [hm] at h
    · exact Option.noConfusion h
    case some ms => exact ⟨ms, rfl, (Option.some.inj h).symm⟩
  · intro o h
    unfold decodeOperation at h
    cases hh : HttpBindings.tryFrom ro.http <;> rw [hh] at h
    · exact Option.noConfusion h
    case some hb =>
      rw [← Option.some.inj h]
  · intro m h
    obtain ⟨md, ops, shs, _, _, _, rfl⟩ := decodeModel_ok_parts norm raw m h
    rfl

/-- Claim C10 (witness): with the normalizer `cNorm` (constantly
`normalized`), the decoded structure `cStructDecoded` keeps its raw
`<p>raw html</p>` documentation verbatim -- still containing HTML markup --
while the operation-level and member-level documentation come out
normalized. -/
theorem structure_doc_verbatim_witness :
    decodeShape cNorm cRawStruct = some cStructDecoded
    ∧ (∃ ms, cRawStruct.members = some ms
        ∧ cStructDecoded
            = Shape.Structure (decodeMembers cNorm ms) cRawStruct.documentation cRawStruct.required)
    ∧ strContainsSub "<p>" "<p>raw html</p>" = true
    ∧ cOpDecoded.documentation = Markdown.mk (cNorm "<p>op doc</p>")
    ∧ (decodeMember cNorm cRawMemberDoc).documentation
        = cRawMemberDoc.documentation.map (fun d => Markdown.mk (cNorm d)) :=
  ⟨rfl,
   (structure_doc_verbatim cNorm cRawStruct cRawOpDoc cRawMemberDoc cRawDangling).1
     cStructDecoded rfl rfl,
   rfl,
   (structure_doc_verbatim cNorm cRawStruct cRawOpDoc cRawMemberDoc cRawDangling).2.1
     cOpDecoded rfl,
   (structure_doc_verbatim cNorm cRawStruct cRawOpDoc cRawMemberDoc cRawDangling).2.2.1⟩

end Botocore
